import Mathlib

/-!
Verification of the tacia-docs backend (Node.js) content discovery and
relevance engine, shallowly embedded in Lean 4.

Embedded source files:
* `src/controllers/StructureController.js` - directory structure listing
* `src/services/related.service.js` - related-document search and cache
* `src/unnamed/part_001` - the tag-based variant of the related service

Modelling conventions:
* JS strings are `String`, JS integers are `Int`/`Nat` (the values that flow
  through the embedded code paths are integral, so no floating point is
  involved).
* Fallible filesystem calls return `Except JsErr`; a JS `try/catch` is an
  explicit `match` on the `Except`.
* `Array.prototype.sort` (stable in Node) is modelled by a stable insertion
  sort parameterised by the comparator from the source.
-/

namespace TaciaDocs

/-! ### Kernel-computable string primitives

Core `String` functions such as `splitOn` or `startsWith` are implemented
with iterators that the kernel cannot evaluate, so the embedding
re-implements the handful of (ASCII-level) string operations the source
uses as structural functions over `String.data`. -/

/-- Whether the second list is an initial segment of the first. -/
def listStarts : List Char → List Char → Bool
  | _, [] => true
  | [], _ :: _ => false
  | c :: cs, p :: ps => c == p && listStarts cs ps

/-- `s.startsWith pre`. -/
def strStarts (s pre : String) : Bool := listStarts s.data pre.data

/-- `s.endsWith suf`. -/
def strEnds (s suf : String) : Bool := listStarts s.data.reverse suf.data.reverse

/-- Split a character list on a separator character. -/
def charsSplit (sep : Char) : List Char → List Char → List String
  | acc, [] => [String.mk acc.reverse]
  | acc, c :: rest =>
    if c = sep then String.mk acc.reverse :: charsSplit sep [] rest
    else charsSplit sep (c :: acc) rest

/-- `s.split(sep)` for a single-character separator. -/
def strSplit (s : String) (sep : Char) : List String := charsSplit sep [] s.data

/-- `String.intercalate sep`. -/
def strJoin (sep : String) : List String → String
  | [] => ""
  | [s] => s
  | s :: rest => s ++ sep ++ strJoin sep rest

/-- Map a character function over a string. -/
def charMap (f : Char → Char) (s : String) : String := String.mk (s.data.map f)

/-- ASCII lower-casing (`toLowerCase` of the source is applied to ASCII
extensions only). -/
def strLower (s : String) : String := charMap Char.toLower s

/-- Lexicographic (code-point) strict order on strings. -/
def strLt (a b : String) : Bool := decide (a.data < b.data)

/-- Drop `n` characters from the right of a string. -/
def strDropRight (s : String) (n : Nat) : String :=
  String.mk (s.data.take (s.data.length - n))

/-- JS `String.prototype.trim` (whitespace at both ends). -/
def strTrim (s : String) : String :=
  String.mk (((s.data.dropWhile Char.isWhitespace).reverse.dropWhile Char.isWhitespace).reverse)

/-- Accumulate decimal digits; `none` on any non-digit. -/
def parseNatGo : List Char → Nat → Option Nat
  | [], acc => some acc
  | c :: rest, acc =>
    if c.isDigit then parseNatGo rest (acc * 10 + (c.toNat - 48)) else none

/-- A nonempty all-digit literal. -/
def parseNatDigits : List Char → Option Nat
  | [] => none
  | l => parseNatGo l 0

/-- JS `Number` on the body of an integer-literal string (optional sign,
then digits); `none` models `NaN`. -/
def parseIntChars : List Char → Option Int
  | '-' :: rest => (parseNatDigits rest).map (fun n => -(n : Int))
  | '+' :: rest => (parseNatDigits rest).map (fun n => (n : Int))
  | l => (parseNatDigits l).map (fun n => (n : Int))

/-- A thrown JS error, as observed by the embedded code: Node errors carry an
optional `code` (e.g. `ENOENT`) and a `message`. -/
structure JsErr where
  code : Option String
  message : String
  deriving Repr, DecidableEq

/-- A JS metadata value as produced by the YAML / front-matter parsers
(external collaborators `yaml` and `gray-matter`; we model their output). -/
inductive JsValue where
  | vStr (s : String)
  | vNum (n : Int)
  | vBool (b : Bool)
  | vNull
  deriving Repr, DecidableEq

/-- JS `Number(v)` conversion; `none` models `NaN`.  Numeric strings are
modelled for optionally-signed integer literals, which covers every value the
claims exercise. -/
def jsToNumber : JsValue → Option Int
  | .vNum n => some n
  | .vBool b => some (if b then 1 else 0)
  | .vNull => some 0
  | .vStr s =>
    let t := strTrim s
    if t = "" then some 0 else parseIntChars t.data

/-- JS `Number(v) || 0`: both `NaN` and `0` collapse to `0`. -/
def numberOr0 (v : JsValue) : Int := (jsToNumber v).getD 0

/-- A parsed metadata mapping (the `data` object of `gray-matter`, or the
result of `parseMetadataFile`). -/
def Meta := List (String × JsValue)
  deriving Repr, DecidableEq

/-- Property lookup on a parsed metadata object; `none` models `undefined`. -/
def metaLookup (m : Meta) (k : String) : Option JsValue :=
  match m.find? (fun p => p.1 == k) with
  | some p => some p.2
  | none => none

/-! ### Node `path.posix` primitives used by the source -/

/-- One step of `path.posix.normalize` segment processing. -/
def normStep (isAbs : Bool) (acc : List String) (seg : String) : List String :=
  if seg = "" ∨ seg = "." then acc
  else if seg = ".." then
    match acc with
    | [] => if isAbs then [] else [".."]
    | t :: rest => if t = ".." then ".." :: t :: rest else rest
  else seg :: acc

/-- Node `path.posix.normalize`: collapses `.`, `..` and duplicate slashes;
keeps leading `..` segments of relative paths. -/
def pathNormalize (p : String) : String :=
  if p = "" then "."
  else
    let isAbs := strStarts p "/"
    let trailing := strEnds p "/" ∧ p ≠ "/"
    let segs := ((strSplit p '/').foldl (normStep isAbs) []).reverse
    let body := strJoin "/" segs
    if isAbs then
      if body = "" then "/" else "/" ++ body ++ (if trailing then "/" else "")
    else
      if body = "" then (if trailing then "./" else ".") else body ++ (if trailing then "/" else "")

/-- Node `path.posix.join` of two parts (empty parts dropped, result
normalized). -/
def pathJoin (a b : String) : String :=
  let parts := [a, b].filter (fun s => s ≠ "")
  if parts.isEmpty then "." else pathNormalize (strJoin "/" parts)

/-- Node `path.posix.dirname`. -/
def dirname (p : String) : String :=
  let rev := p.data.reverse.dropWhile (fun c => c = '/')
  let rest := (rev.dropWhile (fun c => c ≠ '/')).dropWhile (fun c => c = '/')
  if rest.isEmpty then (if strStarts p "/" then "/" else ".")
  else (if strStarts p "/" then "/" else "") ++ String.mk rest.reverse

/-- Node `path.posix.basename(p, ext)`: the last path component, with the
suffix `ext` removed when it is a proper suffix. -/
def basenameExt (p : String) (ext : String) : String :=
  let base := String.mk (p.data.reverse.takeWhile (fun c => c ≠ '/')).reverse
  if strEnds base ext ∧ base ≠ ext then strDropRight base ext.data.length else base

/-- Node `path.extname` restricted to base names (how the source uses it):
the suffix from the last `.`, or `""` when there is no dot or the only dot is
leading. -/
def extname (s : String) : String :=
  let cs := s.data
  let revAfter := cs.reverse.takeWhile (fun c => c ≠ '.')
  if revAfter.length = cs.length then ""
  else
    let idx := cs.length - 1 - revAfter.length
    if idx = 0 then "" else String.mk (cs.drop idx)

/-! ### Regex-based path mangling from the source (character-exact models) -/

/-- JS `s.replace(/\\/g, '/')`. -/
def slashify (s : String) : String :=
  charMap (fun c => if c = '\\' then '/' else c) s

/-- JS `s.replace(/^\/+|\/+$/g, '')`: strip leading and trailing slash runs. -/
def stripEdgeSlashes (s : String) : String :=
  String.mk (((s.data.dropWhile (fun c => c = '/')).reverse.dropWhile (fun c => c = '/')).reverse)

/-- JS `s.replace(/^(\/\.\.|\/\.|\\.\.|\\.)+/g, '')` from
`StructureController.handleContentStructure` (src/controllers/StructureController.js:94):
repeatedly strip a leading `/..`, `/.`, `\<any>.` or `\<any>`. -/
def stripTravLead : List Char → List Char
  | '/' :: '.' :: '.' :: rest => stripTravLead rest
  | '/' :: '.' :: rest => stripTravLead rest
  | '\\' :: _ :: '.' :: rest => stripTravLead rest
  | '\\' :: _ :: rest => stripTravLead rest
  | l => l

/-- Whether a character is one of the separators `[/\\]` of the source's
regexes. -/
def isSep (c : Char) : Bool := c = '/' ∨ c = '\\'

/-- JS `s.replace(/^[/\\]+/, '')` (src/controllers/StructureController.js:95). -/
def stripLeadSeps (l : List Char) : List Char := l.dropWhile isSep

/-- Helper for `collapseSeps`, carrying whether the previous character was a
separator. -/
def collapseGo : Bool → List Char → List Char
  | _, [] => []
  | prevSep, c :: rest =>
    if isSep c then
      (if prevSep then collapseGo true rest else '/' :: collapseGo true rest)
    else c :: collapseGo false rest

/-- JS `s.replace(/[/\\]+/g, '/')` (src/controllers/StructureController.js:96). -/
def collapseSeps (l : List Char) : List Char := collapseGo false l

/-- The `safePath` computation of
`StructureController.handleContentStructure` (src/controllers/StructureController.js:93-96). -/
def safePathOf (contentPath : String) : String :=
  String.mk (collapseSeps (stripLeadSeps (stripTravLead (pathNormalize contentPath).data)))

/-! ### A stable sort modelling `Array.prototype.sort`

Node's `Array.prototype.sort` is stable (TimSort).  We model
`arr.sort(cmp)` by a stable insertion sort on the boolean relation
`le a b := cmp a b ≤ 0` (an earlier element `a` stays before a later `b`
exactly when the comparator does not order `b` strictly first). -/

/-- Insert `x` (an element originally earlier than everything in `l`) into the
already-sorted `l`, keeping it before the first element it ties with. -/
def insertLe (le : α → α → Bool) (x : α) : List α → List α
  | [] => [x]
  | y :: ys => if le x y then x :: y :: ys else y :: insertLe le x ys

/-- Stable sort by the boolean relation `le` (model of JS stable sort). -/
def jsSortLe (le : α → α → Bool) : List α → List α
  | [] => []
  | x :: xs => insertLe le x (jsSortLe le xs)

/-! ### `StructureController.listDirectoryContents` (src/controllers/StructureController.js) -/

/-- A `ContentItem` of the structure listing as built by
`listDirectoryContents` (src/controllers/StructureController.js:171-179);
`itemType` is the JS `type` field. -/
structure SItem where
  name : String
  path : String
  isDirectory : Bool
  size : Nat
  lastModified : String
  itemType : String
  metadata : Meta
  order : Option Int
  deriving Repr, DecidableEq

/-- `fs.stat` result fields used by the source. -/
structure FileStat where
  size : Nat
  mtimeIso : String
  isDirectory : Bool
  deriving Repr, DecidableEq

/-- A directory entry together with the outcomes of the per-entry filesystem
calls the source performs on it:
* `stat` — the result of `fs.stat(entryPath)` (line 167);
* `meta` — for a directory, the outcome of reading+parsing its `.metadata`
  sidecar (lines 184-187, `.ok none` = parser returned `null`); for a
  markdown file, the outcome of reading it and extracting front matter
  (lines 205-206, `.ok none` = no/unparsable front-matter block).
The YAML parsers themselves are external collaborators; we model their
parsed output. -/
structure SEntry where
  name : String
  isDir : Bool
  stat : Except JsErr FileStat
  meta : Except JsErr (Option Meta)
  deriving Repr

/-- `config.contentExtensions` from src/config/app.config.js. -/
def contentExtensions : List String := [".html", ".md"]

/-- The two `continue` guards of the entry loop
(src/controllers/StructureController.js:156-165): hidden names other than
`.metadata`, and non-directories whose lowercased extension is not
allow-listed. -/
def entrySkipped (e : SEntry) : Bool :=
  (strStarts e.name "." && e.name != ".metadata") ||
  (!e.isDir && e.name != ".metadata" && !(contentExtensions.contains (strLower (extname e.name))))

/-- `if (metadata.order !== undefined) item.order = Number(metadata.order) || 0`
(src/controllers/StructureController.js:190-193 and 209-212). -/
def applyOrder (item : SItem) (m : Meta) : SItem :=
  match metaLookup m "order" with
  | some v => { item with order := some (numberOr0 v) }
  | none => item

/-- `if (metadata) { item.metadata = metadata; ...order... }` with read errors
tolerated (src/controllers/StructureController.js:181-217). -/
def applyMeta (item : SItem) (mr : Except JsErr (Option Meta)) : SItem :=
  match mr with
  | .error _ => item
  | .ok none => item
  | .ok (some m) => applyOrder { item with metadata := m } m

/-- Process one directory entry: the body of the `for` loop of
`listDirectoryContents` (src/controllers/StructureController.js:151-226).
`.ok none` = the entry is skipped; `.error` = the uncaught `fs.stat` failure
propagates. -/
def processEntry (contentPath : String) (e : SEntry) : Except JsErr (Option SItem) :=
  if entrySkipped e then .ok none
  else
    match e.stat with
    | .error err => .error err
    | .ok st =>
      let relativePath := slashify (pathJoin contentPath e.name)
      let item0 : SItem :=
        { name := e.name
          path := relativePath
          isDirectory := e.isDir
          size := st.size
          lastModified := st.mtimeIso
          itemType := if e.isDir then "directory" else "file"
          metadata := []
          order := none }
      let item :=
        if e.isDir then applyMeta item0 e.meta
        else if strEnds e.name ".md" then applyMeta item0 e.meta
        else item0
      if e.name == ".metadata" then .ok none else .ok (some item)

/-- The entry loop: processes entries in `readdir` order, propagating the
first uncaught error. -/
def processEntries (contentPath : String) : List SEntry → Except JsErr (List SItem)
  | [] => .ok []
  | e :: es =>
    match processEntry contentPath e with
    | .error err => .error err
    | .ok none => processEntries contentPath es
    | .ok (some it) =>
      match processEntries contentPath es with
      | .error err => .error err
      | .ok items => .ok (it :: items)

/-- `Number.MAX_SAFE_INTEGER`, the sentinel for missing `order`
(src/controllers/StructureController.js:232-233). -/
def MAX_SAFE_INTEGER : Int := 9007199254740991

/-- Model of `a.name.localeCompare(b.name)`; on the ASCII names appearing in
the claims this agrees with any locale collation that orders distinct first
letters alphabetically. -/
def localeCmp (a b : String) : Int :=
  if strLt a b then -1 else if strLt b a then 1 else 0

/-- The type-then-name tail of the item comparator
(src/controllers/StructureController.js:239-244). -/
def typeThenNameCmp (a b : SItem) : Int :=
  if a.isDirectory ∧ ¬ b.isDirectory then -1
  else if ¬ a.isDirectory ∧ b.isDirectory then 1
  else localeCmp a.name b.name

/-- The item comparator of `items.sort(...)`
(src/controllers/StructureController.js:229-245). -/
def structCompare (a b : SItem) : Int :=
  if a.order.isSome ∨ b.order.isSome then
    let aOrder := a.order.getD MAX_SAFE_INTEGER
    let bOrder := b.order.getD MAX_SAFE_INTEGER
    if aOrder ≠ bOrder then aOrder - bOrder
    else typeThenNameCmp a b
  else typeThenNameCmp a b

/-- `items.sort((a, b) => ...)` — stable sort by the source's comparator. -/
def structSort (items : List SItem) : List SItem :=
  jsSortLe (fun a b => decide (structCompare a b ≤ 0)) items

/-- The filesystem as seen by the structure controller. -/
structure StructFs where
  stat : String → Except JsErr FileStat
  readdir : String → Except JsErr (List SEntry)

/-- The controller's possible JSON responses (`sendResponse` /`handleError`
call sites of src/controllers/StructureController.js). -/
inductive StructureResponse where
  | success (path : String) (items : List SItem) (count : Nat)
  | invalidPath
  | notADirectory (path : String)
  | dirNotFound (path : String)
  | internalError (message : String)
  deriving Repr, DecidableEq

/-- HTTP status attached by `sendResponse`/`handleError`. -/
def statusOf : StructureResponse → Nat
  | .success .. => 200
  | .invalidPath => 400
  | .notADirectory _ => 400
  | .dirNotFound _ => 404
  | .internalError _ => 500

/-- `listDirectoryContents` (src/controllers/StructureController.js:144-271):
read the directory, process entries (uncaught errors become a 500 via the
surrounding `try`/`handleError`), sort, and answer 200. -/
def listDirectoryContents (fs : StructFs) (fullPath contentPath : String) :
    StructureResponse :=
  match fs.readdir fullPath with
  | .error e => .internalError e.message
  | .ok entries =>
    match processEntries contentPath entries with
    | .error e => .internalError e.message
    | .ok items =>
      let sorted := structSort items
      .success (if contentPath = "" then "/" else contentPath) sorted sorted.length

/-- `handleContentStructure` (src/controllers/StructureController.js:83-138):
root shortcut, `safePath` mangling, the `startsWith` containment check, the
directory `stat` (ENOENT ↦ 404, other failures rethrown into `handleError`
↦ 500), then the listing. -/
def handleContentStructure (fs : StructFs) (root contentPath : String) :
    StructureResponse :=
  if contentPath = "" ∨ contentPath = "/" then listDirectoryContents fs root ""
  else
    let safePath := safePathOf contentPath
    let fullPath := pathJoin root safePath
    if ¬ strStarts fullPath root then .invalidPath
    else
      match fs.stat fullPath with
      | .error e =>
        if e.code = some "ENOENT" then .dirNotFound contentPath
        else .internalError e.message
      | .ok st =>
        if ¬ st.isDirectory then .notADirectory contentPath
        else listDirectoryContents fs fullPath contentPath

/-! ### The related-documents service (src/services/related.service.js and
src/unnamed/part_001) -/

/-- The `tags` value of a front-matter object: either an array or a scalar
(the source handles both via `Array.isArray`). -/
inductive TagsVal where
  | arr (l : List String)
  | single (s : String)
  deriving Repr, DecidableEq

/-- The front-matter fields the related service reads (`gray-matter` is an
external collaborator, we model its parsed `data`). `none` models an absent
field. -/
structure FileData where
  title : Option String
  tags : Option TagsVal
  deriving Repr, DecidableEq

/-- JS truthiness of a `tags` value (`!data.tags`): absent and the empty
string are falsy; arrays (even empty) are truthy. -/
def tagsTruthy : Option TagsVal → Bool
  | none => false
  | some (.arr _) => true
  | some (.single s) => s ≠ ""

/-- `Array.isArray(tags) ? tags : [tags]` on a (truthy) tags value. -/
def tagsToArray : Option TagsVal → List String
  | none => []
  | some (.arr l) => l
  | some (.single s) => [s]

/-- A node of the content tree under `CONTENT_DIR`.  A file carries the
outcome of reading + front-matter-parsing it (`.error` = `fs.readFile`/
`matter` throws); an unreadable directory models a failing `fs.readdir`. -/
inductive FNode where
  | file (name : String) (data : Except String FileData)
  | dir (name : String) (readable : Bool) (children : List FNode)
  deriving Repr

/-- Name of a tree node. -/
def FNode.name : FNode → String
  | .file n _ => n
  | .dir n _ _ => n

/-- Walk already-normalized path segments down the tree. -/
def walkSegs : FNode → List String → Option FNode
  | n, [] => some n
  | .file _ _, _ :: _ => none
  -- readability does not gate path resolution, only `readdir`
  | .dir _ _ cs, seg :: rest =>
    match cs.find? (fun c => c.name == seg) with
    | some c => walkSegs c rest
    | none => none

/-- Resolve a path relative to the content root against the tree, with the
same `.`/`..` collapsing the OS applies to the joined path; anything that
escapes the root resolves to nothing (the model's filesystem is empty outside
the content root). -/
def treeResolve (root : List FNode) (p : String) : Option FNode :=
  let np := pathNormalize p
  if strStarts np ".." ∨ strStarts np "/" then none
  else
    let segs := (strSplit np '/').filter (fun s => s ≠ "" ∧ s ≠ ".")
    walkSegs (.dir "" true root) segs

mutual
/-- DFS of `getAllMarkdownFiles` over one node
(src/services/related.service.js:243-265): directories recurse (a failing
`readdir` aborts the whole scan), files are collected when their name ends in
`.md`. -/
def collectMdNode (dirPath : String) : FNode → Except Unit (List String)
  | .file name _ =>
    .ok (if strEnds name ".md" then [slashify (pathJoin (slashify dirPath) name)] else [])
  | .dir name readable children =>
    if readable then collectMdList (pathJoin (slashify dirPath) name) children
    else .error ()

/-- DFS over a directory listing, in `readdir` order. -/
def collectMdList (dirPath : String) : List FNode → Except Unit (List String)
  | [] => .ok []
  | n :: rest => do
    let here ← collectMdNode dirPath n
    let there ← collectMdList dirPath rest
    .ok (here ++ there)
end

/-- `getAllMarkdownFiles(dir)` (src/services/related.service.js:243-265):
`readdir` the requested directory (a missing or unreadable directory, or a
file, makes it throw) and collect `.md` paths depth-first. -/
def getAllMarkdownFiles (root : List FNode) (dir : String) : Except Unit (List String) :=
  match treeResolve root dir with
  | some (.dir _ readable children) =>
    if readable then collectMdList dir children else .error ()
  | _ => .error ()

/-- Strip a case-insensitive `.md` suffix: JS `replace(/\.md$/i, '')`. -/
def stripMdCI (s : String) : String :=
  let cs := s.data
  if cs.length ≥ 3 ∧ (cs.drop (cs.length - 3)).map Char.toLower = ['.', 'm', 'd']
  then String.mk (cs.take (cs.length - 3)) else s

/-- JS `\w` (ASCII word character). -/
def isWordChar (c : Char) : Bool := (c.isAlpha ∧ c.val < 128) ∨ c.isDigit ∨ c = '_'

/-- JS `replace(/\b\w/g, l => l.toUpperCase())`: uppercase every word
character not preceded by a word character. -/
def capWordsGo : Bool → List Char → List Char
  | _, [] => []
  | prevWord, c :: rest =>
    let w := isWordChar c
    (if w ∧ ¬ prevWord then c.toUpper else c) :: capWordsGo w rest

/-- Title derived from a file name
(src/services/related.service.js:212-215): basename without `.md`,
`-`/`_` replaced by spaces, word starts uppercased. -/
def titleFromBasename (filePath : String) : String :=
  let basename := basenameExt filePath ".md"
  let spaced := charMap (fun c => if c = '-' ∨ c = '_' then ' ' else c) basename
  String.mk (capWordsGo false spaced.data)

/-- A `RelatedDocument` as pushed by either variant of
`findRelatedDocuments`; the live path-based variant leaves `commonTags` and
`commonTagsCount` absent (`none`). -/
structure RelatedDoc where
  path : String
  title : String
  commonTags : Option (List String)
  commonTagsCount : Option Nat
  relevance : Nat
  deriving Repr, DecidableEq

/-- The JS comparator `(a, b) => b.relevance - a.relevance`. -/
def relCompare (a b : RelatedDoc) : Int :=
  (b.relevance : Int) - (a.relevance : Int)

/-- `relatedDocs.sort((a, b) => b.relevance - a.relevance)`: stable descending
sort by relevance (src/services/related.service.js:228-229). -/
def jsSortDesc (l : List RelatedDoc) : List RelatedDoc :=
  jsSortLe (fun a b => decide (relCompare a b ≤ 0)) l

/-- The candidate loop of the live `findRelatedDocuments`
(src/services/related.service.js:193-225): skip the current document
(compared after backslash replacement and case-insensitive `.md` stripping),
then score every remaining file by directory proximity — relevance 2 in the
same directory, 1 elsewhere.  Tags are never consulted. -/
def collectCandidates (currentPath : String) (files : List String) : List RelatedDoc :=
  let currentDir := dirname currentPath
  files.filterMap fun filePath =>
    let normalizedFilePath := stripMdCI (slashify filePath)
    let normalizedCurrentPath := stripMdCI (slashify currentPath)
    if normalizedFilePath = normalizedCurrentPath then none
    else
      let fileDir := dirname filePath
      let relevance : Nat := if currentDir = fileDir then 2 else 1
      some
        { path := normalizedFilePath
          title := titleFromBasename filePath
          commonTags := none
          commonTagsCount := none
          relevance := relevance }

/-- The live `findRelatedDocuments` (src/services/related.service.js:183-236):
scan the target's own directory subtree, score by path proximity, stable-sort
descending by relevance, truncate to `limit`; any scan error is caught and
yields `[]`.  The `currentMetadata` parameter is accepted but unused, as in
the source. -/
def findRelatedDocuments (root : List FNode) (currentPath documentDir : String)
    (currentMetadata : FileData) (limit : Nat) : List RelatedDoc :=
  match getAllMarkdownFiles root documentDir with
  | .error _ => []
  | .ok files =>
    let _ := currentMetadata
    (jsSortDesc (collectCandidates currentPath files)).take limit

/-- `readFile` + `matter` applied to a candidate path
(src/unnamed/part_001:200-202); any failure (read error, or the path being a
directory) is an `.error` that the caller's `catch` turns into a skip. -/
def treeReadData (root : List FNode) (p : String) : Except Unit FileData :=
  match treeResolve root p with
  | some (.file _ (.ok d)) => .ok d
  | some (.file _ (.error _)) => .error ()
  | some (.dir ..) => .error ()
  | none => .error ()

/-- The candidate loop of the tag-based `findRelatedDocuments` of
src/unnamed/part_001:189-241: skip the current document, read each
candidate's front matter (read errors skip the candidate), skip candidates
when either side has falsy `tags`, intersect tag arrays, and keep candidates
with a nonempty intersection at `relevance = |commonTags|`. -/
def collectCandidatesP1 (root : List FNode) (currentPath : String)
    (currentMetadata : FileData) (files : List String) : List RelatedDoc :=
  files.filterMap fun filePath =>
    let normalizedFilePath := stripMdCI (slashify filePath)
    let normalizedCurrentPath := stripMdCI (slashify currentPath)
    if normalizedFilePath = normalizedCurrentPath then none
    else
      match treeReadData root filePath with
      | .error _ => none
      | .ok data =>
        if ¬ (tagsTruthy data.tags ∧ tagsTruthy currentMetadata.tags) then none
        else
          let title :=
            match data.title with
            | some t => if t ≠ "" then t else titleFromBasename filePath
            | none => titleFromBasename filePath
          let candidateTags := tagsToArray data.tags
          let currentTags := tagsToArray currentMetadata.tags
          let commonTags := candidateTags.filter (fun t => currentTags.contains t)
          if commonTags.length > 0 then
            some
              { path := slashify (stripMdCI filePath)
                title := title
                commonTags := some commonTags
                commonTagsCount := some commonTags.length
                relevance := commonTags.length }
          else none

/-- The tag-based `findRelatedDocuments` of src/unnamed/part_001:181-252:
scan the whole content root (`getAllMarkdownFiles('.')`), keep candidates
sharing tags with the target, stable-sort descending by relevance, truncate
to `limit`. -/
def findRelatedDocumentsP1 (root : List FNode) (currentPath : String)
    (currentMetadata : FileData) (limit : Nat) : List RelatedDoc :=
  match getAllMarkdownFiles root "." with
  | .error _ => []
  | .ok files =>
    (jsSortDesc (collectCandidatesP1 root currentPath currentMetadata files)).take limit

/-! ### The related-documents cache (src/services/related.service.js:9-172) -/

/-- A cache entry: `{ timestamp, data, ttl }`. -/
structure CacheEntry where
  timestamp : Int
  data : List RelatedDoc
  ttl : Int
  deriving Repr, DecidableEq

/-- The `relatedDocsCache` map, as an insertion-ordered association list
(JS `Map` iteration order). -/
def Cache := List (String × CacheEntry)
  deriving Repr, DecidableEq

/-- `Map.get`. -/
def cacheLookup (c : Cache) (k : String) : Option CacheEntry :=
  match List.find? (fun p => p.1 == k) c with
  | some p => some p.2
  | none => none

/-- `Map.delete`. -/
def cacheDelete (c : Cache) (k : String) : Cache :=
  List.filter (fun p => p.1 != k) c

/-- `Map.set`: overwrite in place when present, append otherwise. -/
def cacheSet (c : Cache) (k : String) (e : CacheEntry) : Cache :=
  match c with
  | [] => [(k, e)]
  | p :: rest => if p.1 == k then (k, e) :: rest else p :: cacheSet rest k e

/-- Number of entries (`Map.size`). -/
def cacheSize (c : Cache) : Nat := List.length c

/-- `DEFAULT_CACHE_TTL = 5 * 60 * 1000` (src/services/related.service.js:12). -/
def DEFAULT_CACHE_TTL : Int := 5 * 60 * 1000

/-- `getCachedRelatedDocs` (src/services/related.service.js:117-134): `null`
on a missing entry; an entry with `now - timestamp > ttl` is deleted and
`null` returned; otherwise the cached data truncated to `limit`.  Returns the
value together with the possibly-mutated cache. -/
def getCachedRelatedDocs (c : Cache) (documentPath : String) (limit : Nat)
    (now : Int) : Option (List RelatedDoc) × Cache :=
  match cacheLookup c documentPath with
  | none => (none, c)
  | some entry =>
    if now - entry.timestamp > entry.ttl then (none, cacheDelete c documentPath)
    else (some (entry.data.take limit), c)

/-- `cleanupCache` (src/services/related.service.js:160-172): delete every
expired entry. -/
def cleanupCache (c : Cache) (now : Int) : Cache :=
  List.filter (fun p => ¬ (now - p.2.timestamp > p.2.ttl)) c

/-- `cacheRelatedDocs` (src/services/related.service.js:142-155): store the
given list under the key, then sweep if the map outgrew 100 entries. -/
def cacheRelatedDocs (c : Cache) (documentPath : String)
    (relatedDocs : List RelatedDoc) (now : Int) (ttl : Int) : Cache :=
  let c2 := cacheSet c documentPath { timestamp := now, data := relatedDocs, ttl := ttl }
  if cacheSize c2 > 100 then cleanupCache c2 now else c2

/-! ### `findRelatedDocumentsForPath` (src/services/related.service.js:21-109) -/

/-- The service result object. The JS object carries an optional `details`
string alongside `error`; it is informational only and omitted here. -/
structure RelatedResult where
  related : List RelatedDoc
  fromCache : Bool
  error : Option String
  deriving Repr, DecidableEq

/-- The path normalization of `findRelatedDocumentsForPath`
(src/services/related.service.js:36-42): backslashes to slashes, edge slash
runs stripped, `.md` appended when absent.  Note: no `..` handling. -/
def normalizeDocPath (documentPath : String) : String :=
  let normalized := stripEdgeSlashes (slashify documentPath)
  if strEnds normalized ".md" then normalized else normalized ++ ".md"

/-- `path.join(CONTENT_DIR, normalizedPath)` — the argument of the very first
filesystem access (`fs.access`, src/services/related.service.js:60-64). -/
def fullDocumentPathOf (contentDir documentPath : String) : String :=
  pathJoin contentDir (normalizeDocPath documentPath)

/-- The target document's metadata read
(src/services/related.service.js:75-82): read errors (including the path
being a directory) are caught and leave `{}`. -/
def readTargetMeta (root : List FNode) (normalizedPath : String) : FileData :=
  match treeReadData root normalizedPath with
  | .ok d => d
  | .error _ => { title := none, tags := none }

/-- `findRelatedDocumentsForPath` (src/services/related.service.js:21-109),
over the content tree, the cache state and the current clock.  Every fallible
step of the source is caught internally, so the embedding is a total function
returning the result object together with the new cache state.  The source's
pure local consts (`normalizedPath`, `documentDir`, `currentDocMetadata`,
`relatedDocs`) are inlined. -/
def findRelatedDocumentsForPath (root : List FNode) (cache : Cache) (now : Int)
    (documentPath : String) (limit : Nat) (skipCache : Bool) :
    RelatedResult × Cache :=
  if documentPath = "" then
    ({ related := [], fromCache := false, error := some "Missing document path" }, cache)
  else
    match (if skipCache then (none, cache)
           else getCachedRelatedDocs cache (normalizeDocPath documentPath) limit now) with
    | (some cached, c2) =>
      ({ related := cached, fromCache := true, error := none }, c2)
    | (none, c2) =>
      match treeResolve root (normalizeDocPath documentPath) with
      | none =>
        ({ related := [], fromCache := false, error := some "Document not found" }, c2)
      | some _ =>
        ({ related := findRelatedDocuments root (normalizeDocPath documentPath)
              (dirname (normalizeDocPath documentPath))
              (readTargetMeta root (normalizeDocPath documentPath)) limit
           fromCache := false
           error := none },
         cacheRelatedDocs c2 (normalizeDocPath documentPath)
           (findRelatedDocuments root (normalizeDocPath documentPath)
             (dirname (normalizeDocPath documentPath))
             (readTargetMeta root (normalizeDocPath documentPath)) limit)
           now DEFAULT_CACHE_TTL)

/-! ### Derived keys of the item comparator, and concrete test data -/

/-- The effective order of an item in the comparator (missing `order` is
`Number.MAX_SAFE_INTEGER`). -/
def effOrder (a : SItem) : Int := a.order.getD MAX_SAFE_INTEGER

/-- The rank the comparator's type tiebreak assigns (directories first). -/
def typeRank (a : SItem) : Nat := if a.isDirectory then 0 else 1

/-- The total preorder actually realised by `structCompare`: ascending
effective order, ties broken by type (directories before files), then by
name. -/
def sKeyLe (a b : SItem) : Prop :=
  effOrder a < effOrder b ∨
    (effOrder a = effOrder b ∧
      (typeRank a < typeRank b ∨ (typeRank a = typeRank b ∧ a.name.data ≤ b.name.data)))

/-- A structure item with only the sort-relevant fields populated. -/
def plainItem (name : String) (isDir : Bool) (order : Option Int) : SItem :=
  { name := name
    path := name
    isDirectory := isDir
    size := 0
    lastModified := ""
    itemType := if isDir then "directory" else "file"
    metadata := []
    order := order }

/-- A markdown file node with given front-matter tags. -/
def mdFile (name : String) (tags : Option TagsVal) : FNode :=
  .file name (.ok { title := none, tags := tags })

/-- Content tree for the C2 scenario: A(tags=[x,y]), B(tags=[x]),
C(no tags). -/
def treeC2 : List FNode :=
  [ mdFile "a.md" (some (.arr ["x", "y"]))
  , mdFile "b.md" (some (.arr ["x"]))
  , mdFile "c.md" none ]

/-- Content tree for the C3 scenario: A(tags=[x,y]), C(tags=[]). -/
def treeC3 : List FNode :=
  [ mdFile "a.md" (some (.arr ["x", "y"]))
  , mdFile "c.md" (some (.arr [])) ]

/-- Content tree for the C5 scenario: a target and two qualifying
candidates. -/
def treeC5 : List FNode :=
  [ mdFile "a.md" none, mdFile "b.md" none, mdFile "c.md" none ]

/-- A filesystem in which `/app/content-evil` — a sibling of the content
root `/app/content` — exists and is a directory. -/
def fsEvil : StructFs :=
  { stat := fun q =>
      if q = "/app/content-evil" then .ok { size := 0, mtimeIso := "", isDirectory := true }
      else .error { code := some "ENOENT", message := "missing" }
    readdir := fun q =>
      if q = "/app/content-evil" then .ok []
      else .error { code := some "ENOENT", message := "missing" } }

/-- A filesystem in which `/app/content/b` exists and is an empty
directory. -/
def fsInner : StructFs :=
  { stat := fun q =>
      if q = "/app/content/b" then .ok { size := 0, mtimeIso := "", isDirectory := true }
      else .error { code := some "ENOENT", message := "missing" }
    readdir := fun q =>
      if q = "/app/content/b" then .ok []
      else .error { code := some "ENOENT", message := "missing" } }

/-- A directory entry whose `fs.stat` fails (e.g. a broken symlink named
`broken.md`). -/
def brokenEntry : SEntry :=
  { name := "broken.md"
    isDir := false
    stat := .error { code := some "ENOENT", message := "stat failed" }
    meta := .ok none }

/-- A filesystem whose sole directory listing contains `brokenEntry`. -/
def brokenFs : StructFs :=
  { stat := fun _ => .ok { size := 0, mtimeIso := "", isDirectory := true }
    readdir := fun _ => .ok [brokenEntry] }

/-- A sample cached ranking used in the cache TTL scenario. -/
def sampleRelated : List RelatedDoc :=
  [ { path := "d", title := "D", commonTags := none, commonTagsCount := none, relevance := 1 } ]

/-- A sample item whose metadata carries a non-numeric `order`. -/
def sampleItem : SItem := plainItem "x.md" false none

/-! ## General lemmas about the stable sort -/

theorem insertLe_perm (le : α → α → Bool) (x : α) (l : List α) :
    (insertLe le x l).Perm (x :: l) := by
  induction l with
  | nil => exact List.Perm.refl _
  | cons y ys ih =>
    by_cases h : le x y
    · simp [insertLe, h]
    · simp only [insertLe, h, if_false]
      exact (ih.cons y).trans (List.Perm.swap x y ys)

theorem jsSortLe_perm (le : α → α → Bool) (l : List α) : (jsSortLe le l).Perm l := by
  induction l with
  | nil => exact List.Perm.refl _
  | cons x xs ih => exact (insertLe_perm le x _).trans (ih.cons x)

theorem insertLe_pairwise (le : α → α → Bool)
    (htot : ∀ a b, le a b = true ∨ le b a = true)
    (htrans : ∀ a b c, le a b = true → le b c = true → le a c = true)
    (x : α) (l : List α) (hl : l.Pairwise (fun a b => le a b = true)) :
    (insertLe le x l).Pairwise (fun a b => le a b = true) := by
  induction l with
  | nil => simp [insertLe]
  | cons y ys ih =>
    rw [List.pairwise_cons] at hl
    obtain ⟨hy, hys⟩ := hl
    by_cases h : le x y
    · simp only [insertLe, h, if_true]
      refine List.Pairwise.cons ?_ (List.Pairwise.cons hy hys)
      intro b hb
      rcases List.mem_cons.mp hb with rfl | hb
      · exact h
      · exact htrans x y b h (hy b hb)
    · simp only [insertLe, h, if_false]
      refine List.Pairwise.cons ?_ (ih hys)
      intro b hb
      rcases List.mem_cons.mp ((insertLe_perm le x ys).mem_iff.mp hb) with heq | hb
      · subst heq
        rcases htot b y with hby | hyb
        · exact absurd hby h
        · exact hyb
      · exact hy b hb

theorem jsSortLe_pairwise (le : α → α → Bool)
    (htot : ∀ a b, le a b = true ∨ le b a = true)
    (htrans : ∀ a b c, le a b = true → le b c = true → le a c = true)
    (l : List α) :
    (jsSortLe le l).Pairwise (fun a b => le a b = true) := by
  induction l with
  | nil => simp [jsSortLe]
  | cons x xs ih => exact insertLe_pairwise le htot htrans x _ ih

theorem filter_insertLe_pos (le : α → α → Bool) (p : α → Bool) (x : α) (l : List α)
    (hx : p x = true) (hle : ∀ b, p b = true → le x b = true) :
    (insertLe le x l).filter p = x :: l.filter p := by
  induction l with
  | nil => simp [insertLe, hx]
  | cons y ys ih =>
    by_cases h : le x y
    · simp [insertLe, h, hx]
    · have hpy : p y = false := by
        cases hpy2 : p y
        · rfl
        · exact absurd (hle y hpy2) (by simpa using h)
      simp [insertLe, h, List.filter_cons, hpy, ih]

theorem filter_insertLe_neg (le : α → α → Bool) (p : α → Bool) (x : α) (l : List α)
    (hx : p x = false) :
    (insertLe le x l).filter p = l.filter p := by
  induction l with
  | nil => simp [insertLe, hx]
  | cons y ys ih =>
    by_cases h : le x y
    · simp [insertLe, h, hx]
    · simp [insertLe, h, List.filter_cons, ih]

theorem filter_jsSortLe (le : α → α → Bool) (p : α → Bool)
    (htie : ∀ a b, p a = true → p b = true → le a b = true) (l : List α) :
    (jsSortLe le l).filter p = l.filter p := by
  induction l with
  | nil => rfl
  | cons x xs ih =>
    show (insertLe le x (jsSortLe le xs)).filter p = (x :: xs).filter p
    by_cases hx : p x
    · rw [filter_insertLe_pos le p x _ hx (fun b hb => htie x b hx hb), ih]
      simp [List.filter_cons, hx]
    · rw [filter_insertLe_neg le p x _ (by simpa using hx), ih]
      simp [List.filter_cons, hx]

/-! ## Bridging lemmas for the two comparators -/

theorem strLt_iff (a b : String) : strLt a b = true ↔ a.data < b.data := by
  simp [strLt]

theorem localeCmp_le_iff (a b : String) : localeCmp a b ≤ 0 ↔ a.data ≤ b.data := by
  unfold localeCmp
  by_cases h1 : strLt a b
  · rw [if_pos h1]
    exact iff_of_true (by norm_num) (le_of_lt ((strLt_iff a b).mp h1))
  · rw [if_neg h1]
    by_cases h2 : strLt b a
    · rw [if_pos h2]
      exact iff_of_false (by norm_num) (not_le.mpr ((strLt_iff b a).mp h2))
    · rw [if_neg h2]
      have ha : ¬ a.data < b.data := fun hc => h1 ((strLt_iff a b).mpr hc)
      have hb : ¬ b.data < a.data := fun hc => h2 ((strLt_iff b a).mpr hc)
      exact iff_of_true le_rfl (not_lt.mp hb)

theorem typeThenNameCmp_le_iff (a b : SItem) :
    typeThenNameCmp a b ≤ 0 ↔
      (typeRank a < typeRank b ∨ (typeRank a = typeRank b ∧ a.name.data ≤ b.name.data)) := by
  unfold typeThenNameCmp typeRank
  by_cases hA : a.isDirectory <;> by_cases hB : b.isDirectory
  · simp [hA, hB, localeCmp_le_iff]
  · simp [hA, hB]
  · simp [hA, hB]
  · simp [hA, hB, localeCmp_le_iff]

theorem structCompare_le_iff (a b : SItem) : structCompare a b ≤ 0 ↔ sKeyLe a b := by
  unfold structCompare sKeyLe effOrder
  by_cases h : a.order.isSome ∨ b.order.isSome
  · rw [if_pos h]
    simp only []
    by_cases hne : a.order.getD MAX_SAFE_INTEGER ≠ b.order.getD MAX_SAFE_INTEGER
    · rw [if_pos hne]
      constructor
      · intro hle
        left
        omega
      · rintro (hlt | ⟨heq, _⟩)
        · omega
        · exact absurd heq hne
    · push_neg at hne
      rw [if_neg (fun hc => hc hne)]
      rw [typeThenNameCmp_le_iff]
      constructor
      · intro hx
        right
        exact ⟨hne, hx⟩
      · rintro (hlt | ⟨_, hx⟩)
        · omega
        · exact hx
  · rw [if_neg h]
    push_neg at h
    have ha : a.order = none := Option.not_isSome_iff_eq_none.mp (by simpa using h.1)
    have hb : b.order = none := Option.not_isSome_iff_eq_none.mp (by simpa using h.2)
    rw [typeThenNameCmp_le_iff, ha, hb]
    constructor
    · intro hx
      right
      exact ⟨rfl, hx⟩
    · rintro (hlt | ⟨_, hx⟩)
      · simp at hlt
      · exact hx

theorem sKeyLe_total (a b : SItem) : sKeyLe a b ∨ sKeyLe b a := by
  unfold sKeyLe
  rcases lt_trichotomy (effOrder a) (effOrder b) with h | h | h
  · exact Or.inl (Or.inl h)
  · rcases Nat.lt_trichotomy (typeRank a) (typeRank b) with h2 | h2 | h2
    · exact Or.inl (Or.inr ⟨h, Or.inl h2⟩)
    · rcases le_total a.name.data b.name.data with h3 | h3
      · exact Or.inl (Or.inr ⟨h, Or.inr ⟨h2, h3⟩⟩)
      · exact Or.inr (Or.inr ⟨h.symm, Or.inr ⟨h2.symm, h3⟩⟩)
    · exact Or.inr (Or.inr ⟨h.symm, Or.inl h2⟩)
  · exact Or.inr (Or.inl h)

theorem sKeyLe_trans (a b c : SItem) : sKeyLe a b → sKeyLe b c → sKeyLe a c := by
  unfold sKeyLe
  rintro (h1 | ⟨e1, h1⟩) (h2 | ⟨e2, h2⟩)
  · exact Or.inl (lt_trans h1 h2)
  · exact Or.inl (by omega)
  · exact Or.inl (by omega)
  · refine Or.inr ⟨e1.trans e2, ?_⟩
    rcases h1 with t1 | ⟨te1, n1⟩ <;> rcases h2 with t2 | ⟨te2, n2⟩
    · exact Or.inl (lt_trans t1 t2)
    · exact Or.inl (by omega)
    · exact Or.inl (by omega)
    · exact Or.inr ⟨te1.trans te2, le_trans n1 n2⟩

theorem structSort_pairwise (l : List SItem) : (structSort l).Pairwise sKeyLe := by
  have h := jsSortLe_pairwise (fun a b => decide (structCompare a b ≤ 0))
    (fun a b => by
      rcases sKeyLe_total a b with h | h
      · exact Or.inl (decide_eq_true ((structCompare_le_iff a b).mpr h))
      · exact Or.inr (decide_eq_true ((structCompare_le_iff b a).mpr h)))
    (fun a b c hab hbc => decide_eq_true ((structCompare_le_iff a c).mpr
      (sKeyLe_trans a b c
        ((structCompare_le_iff a b).mp (of_decide_eq_true hab))
        ((structCompare_le_iff b c).mp (of_decide_eq_true hbc)))))
    l
  exact h.imp (fun hab => (structCompare_le_iff _ _).mp (of_decide_eq_true hab))

theorem relCompare_le_iff (a b : RelatedDoc) :
    relCompare a b ≤ 0 ↔ b.relevance ≤ a.relevance := by
  unfold relCompare
  omega

theorem jsSortDesc_pairwise (l : List RelatedDoc) :
    (jsSortDesc l).Pairwise (fun a b => b.relevance ≤ a.relevance) := by
  have h := jsSortLe_pairwise (fun a b => decide (relCompare a b ≤ 0))
    (fun a b => by
      rcases le_total b.relevance a.relevance with h | h
      · exact Or.inl (decide_eq_true ((relCompare_le_iff a b).mpr h))
      · exact Or.inr (decide_eq_true ((relCompare_le_iff b a).mpr h)))
    (fun a b c hab hbc => decide_eq_true ((relCompare_le_iff a c).mpr
      (le_trans
        ((relCompare_le_iff b c).mp (of_decide_eq_true hbc))
        ((relCompare_le_iff a b).mp (of_decide_eq_true hab)))))
    l
  exact h.imp (fun hab => (relCompare_le_iff _ _).mp (of_decide_eq_true hab))

theorem jsSortDesc_filter_relevance (l : List RelatedDoc) (v : Nat) :
    (jsSortDesc l).filter (fun d => d.relevance == v)
      = l.filter (fun d => d.relevance == v) := by
  refine filter_jsSortLe _ _ ?_ l
  intro a b ha hb
  have ha2 : a.relevance = v := by simpa using ha
  have hb2 : b.relevance = v := by simpa using hb
  exact decide_eq_true ((relCompare_le_iff a b).mpr (by omega))


/-! ## Cache lemmas -/

theorem find_filter_ne (k : String) (c : List (String × CacheEntry)) :
    List.find? (fun p => p.1 == k) (List.filter (fun p => p.1 != k) c) = none := by
  induction c with
  | nil => rfl
  | cons p rest ih =>
    by_cases h : p.1 = k
    · simp [List.filter_cons, h, ih]
    · simp [List.filter_cons, h, List.find?_cons, ih]

theorem cacheLookup_cons (k2 : String) (e2 : CacheEntry) (rest : Cache) (k : String) :
    cacheLookup ((k2, e2) :: rest) k = if k2 = k then some e2 else cacheLookup rest k := by
  unfold cacheLookup
  by_cases h : k2 = k
  · simp [List.find?_cons, h]
  · simp [List.find?_cons, h]

theorem cacheLookup_delete (c : Cache) (k : String) :
    cacheLookup (cacheDelete c k) k = none := by
  unfold cacheLookup cacheDelete
  rw [find_filter_ne]

theorem cacheLookup_set (c : Cache) (k : String) (e : CacheEntry) :
    cacheLookup (cacheSet c k e) k = some e := by
  induction c with
  | nil => simp [cacheSet, cacheLookup_cons]
  | cons p rest ih =>
    rcases p with ⟨k2, e2⟩
    by_cases h : k2 = k
    · simp [cacheSet, h, cacheLookup_cons]
    · simp [cacheSet, h, cacheLookup_cons, ih]

theorem cacheLookup_cleanup_fresh (c : Cache) (now : Int) (k : String) (e : CacheEntry)
    (hl : cacheLookup c k = some e) (hfresh : ¬ (now - e.timestamp > e.ttl)) :
    cacheLookup (cleanupCache c now) k = some e := by
  induction c with
  | nil => simp [cacheLookup] at hl
  | cons p rest ih =>
    rcases p with ⟨k2, e2⟩
    rw [cacheLookup_cons] at hl
    unfold cleanupCache at ih ⊢
    by_cases h : k2 = k
    · rw [if_pos h] at hl
      obtain rfl : e2 = e := by injection hl
      rw [List.filter_cons, if_pos (by simp; omega)]
      simp [cacheLookup_cons, h]
    · rw [if_neg h] at hl
      rw [List.filter_cons]
      by_cases hf : (now - e2.timestamp > e2.ttl)
      · rw [if_neg (by simp; omega)]
        exact ih hl
      · rw [if_pos (by simp; omega)]
        rw [cacheLookup_cons, if_neg h]
        exact ih hl

theorem cacheLookup_cacheRelatedDocs (c : Cache) (k : String) (docs : List RelatedDoc)
    (now : Int) (ttl : Int) (httl : ¬ ((0 : Int) > ttl)) :
    cacheLookup (cacheRelatedDocs c k docs now ttl) k
      = some { timestamp := now, data := docs, ttl := ttl } := by
  unfold cacheRelatedDocs
  by_cases hs : cacheSize (cacheSet c k { timestamp := now, data := docs, ttl := ttl }) > 100
  · rw [if_pos hs]
    refine cacheLookup_cleanup_fresh _ now k _ (cacheLookup_set c k _) ?_
    simp
    omega
  · rw [if_neg hs]
    exact cacheLookup_set c k _

/-! ## Service-level lemmas -/

theorem findRelatedDocuments_length_le (root : List FNode) (cp dd : String)
    (md : FileData) (limit : Nat) :
    (findRelatedDocuments root cp dd md limit).length ≤ limit := by
  unfold findRelatedDocuments
  cases h : getAllMarkdownFiles root dd with
  | error e => simp
  | ok files => simp [List.length_take]

theorem findRelatedDocuments_pairwise (root : List FNode) (cp dd : String)
    (md : FileData) (limit : Nat) :
    (findRelatedDocuments root cp dd md limit).Pairwise
      (fun a b => b.relevance ≤ a.relevance) := by
  unfold findRelatedDocuments
  cases h : getAllMarkdownFiles root dd with
  | error e => simp
  | ok files =>
    exact (jsSortDesc_pairwise _).sublist (List.take_sublist _ _)

theorem frp_skip_result_indep (root : List FNode) (c1 c2 : Cache) (n1 n2 : Int)
    (p : String) (limit : Nat) :
    (findRelatedDocumentsForPath root c1 n1 p limit true).1
      = (findRelatedDocumentsForPath root c2 n2 p limit true).1 := by
  unfold findRelatedDocumentsForPath
  by_cases hp : p = ""
  · simp [hp]
  · simp only [hp, if_false, if_true, ite_true, ite_false, reduceIte]
    cases treeResolve root (normalizeDocPath p) <;> simp

theorem frp_skip_related_pairwise (root : List FNode) (cache : Cache) (now : Int)
    (p : String) (limit : Nat) :
    ((findRelatedDocumentsForPath root cache now p limit true).1.related).Pairwise
      (fun a b => b.relevance ≤ a.relevance) := by
  unfold findRelatedDocumentsForPath
  by_cases hp : p = ""
  · simp [hp]
  · simp only [hp, if_false, if_true, ite_true, ite_false, reduceIte]
    cases treeResolve root (normalizeDocPath p) <;>
      simp [findRelatedDocuments_pairwise]


/-! ## Lemmas about the structure-listing entry loop -/

theorem processEntry_stat_error (cp : String) (e : SEntry) (err : JsErr)
    (hskip : entrySkipped e = false) (hstat : e.stat = .error err) :
    processEntry cp e = .error err := by
  unfold processEntry
  simp [hskip, hstat]

theorem processEntry_ok_of_stat (cp : String) (e : SEntry) (st : FileStat)
    (hstat : e.stat = .ok st) :
    ∃ o, processEntry cp e = .ok o := by
  unfold processEntry
  by_cases hs : entrySkipped e
  · rw [if_pos hs]
    exact ⟨none, rfl⟩
  · rw [if_neg hs, hstat]
    simp only
    split
    · exact ⟨none, rfl⟩
    · exact ⟨some _, rfl⟩

theorem processEntries_error_of_stat (cp : String) (es : List SEntry)
    (h : ∃ e ∈ es, entrySkipped e = false ∧ ∃ err, e.stat = .error err) :
    ∃ err, processEntries cp es = .error err := by
  induction es with
  | nil => simp at h
  | cons e rest ih =>
    rcases h with ⟨e2, he2, hsk, err, hst⟩
    rcases List.mem_cons.mp he2 with heq | hmem
    · subst heq
      exact ⟨err, by simp [processEntries, processEntry_stat_error cp e2 err hsk hst]⟩
    · cases hpe : processEntry cp e with
      | error err2 => exact ⟨err2, by simp [processEntries, hpe]⟩
      | ok o =>
        obtain ⟨err2, h2⟩ := ih ⟨e2, hmem, hsk, err, hst⟩
        cases o with
        | none => exact ⟨err2, by simp [processEntries, hpe, h2]⟩
        | some it => exact ⟨err2, by simp [processEntries, hpe, h2]⟩

theorem processEntries_ok_of_stat (cp : String) (es : List SEntry)
    (h : ∀ e ∈ es, ∃ st, e.stat = .ok st) :
    ∃ items, processEntries cp es = .ok items := by
  induction es with
  | nil => exact ⟨[], rfl⟩
  | cons e rest ih =>
    obtain ⟨st, hst⟩ := h e (List.mem_cons_self e rest)
    obtain ⟨o, ho⟩ := processEntry_ok_of_stat cp e st hst
    obtain ⟨items, hi⟩ := ih (fun e2 he2 => h e2 (List.mem_cons_of_mem e he2))
    cases o with
    | none => exact ⟨items, by simp [processEntries, ho, hi]⟩
    | some it => exact ⟨it :: items, by simp [processEntries, ho, hi]⟩


/-! ## Claim theorems -/

/-- C1: the claim that every client-supplied raw path is confined to the
content root and that any `..`-containing raw path is rejected with a 400
before filesystem access is FALSE on the code.  With content root
`/app/content`: (1) for the structure endpoint, the raw path
`../content-evil` survives the `safePath` mangling, joins to the sibling
directory `/app/content-evil` which passes the `startsWith` containment
check although it lies outside the root, and the request is served with
status 200; (2) the raw path `a/../b` contains `..` yet is also served 200;
(3) `findRelatedDocumentsForPath` performs no traversal check at all: the
raw path `../secret` is normalized to `../secret.md`, joined to
`/app/secret.md` outside the root, and the service proceeds to the
filesystem access, answering `Document not found` (404) — never an
`Invalid path` 400. -/
theorem c1_traversal_not_rejected :
    safePathOf "../content-evil" = "../content-evil"
    ∧ pathJoin "/app/content" "../content-evil" = "/app/content-evil"
    ∧ strStarts "/app/content-evil" "/app/content" = true
    ∧ strStarts "/app/content-evil" "/app/content/" = false
    ∧ "/app/content-evil" ≠ "/app/content"
    ∧ statusOf (handleContentStructure fsEvil "/app/content" "../content-evil") = 200
    ∧ statusOf (handleContentStructure fsInner "/app/content" "a/../b") = 200
    ∧ normalizeDocPath "../secret" = "../secret.md"
    ∧ fullDocumentPathOf "/app/content" "../secret" = "/app/secret.md"
    ∧ strStarts "/app/secret.md" "/app/content" = false
    ∧ (findRelatedDocumentsForPath [] [] 0 "../secret" 5 false).1.error
        = some "Document not found" :=
  ⟨rfl, rfl, rfl, rfl, by decide, rfl, rfl, rfl, rfl, rfl, rfl⟩

/-- C2: the claim that `findRelated` scores candidates by tag intersection
is FALSE on the live service.  On the tree A(tags=[x,y]), B(tags=[x]),
C(no tags), the wired-up `findRelatedDocuments` of
src/services/related.service.js ignores tags entirely: it returns both B and
C with directory-proximity relevance 2 and no `commonTags` field — instead
of only B with `relevance = 1` and `commonTags = [x]`.  The tag-based
algorithm the claim (and the service docstring) describe exists only in the
variant of src/unnamed/part_001, whose embedding produces exactly the
claimed result. -/
theorem c2_live_engine_ignores_tags :
    (findRelatedDocumentsForPath treeC2 [] 0 "a" 5 false).1.related
      = [ { path := "b", title := "B", commonTags := none, commonTagsCount := none,
            relevance := 2 }
        , { path := "c", title := "C", commonTags := none, commonTagsCount := none,
            relevance := 2 } ]
    ∧ findRelatedDocumentsP1 treeC2 "a.md"
        { title := none, tags := some (.arr ["x", "y"]) } 5
      = [ { path := "b", title := "B", commonTags := some ["x"],
            commonTagsCount := some 1, relevance := 1 } ] :=
  ⟨rfl, rfl⟩

/-- C3: the claim that `findRelated` never returns a document sharing zero
tags with the target is FALSE on the live service.  On the tree
A(tags=[x,y]), C(tags=[]), the live `findRelatedDocuments` returns C (zero
shared tags) with path-based relevance 2; the target itself is excluded (that
half of the claim holds).  The tag-based variant of src/unnamed/part_001
excludes C, as the claim describes. -/
theorem c3_zero_shared_tags_included :
    (findRelatedDocumentsForPath treeC3 [] 0 "a" 5 false).1.related
      = [ { path := "c", title := "C", commonTags := none, commonTagsCount := none,
            relevance := 2 } ]
    ∧ (∀ d ∈ (findRelatedDocumentsForPath treeC3 [] 0 "a" 5 false).1.related,
        d.path ≠ "a")
    ∧ findRelatedDocumentsP1 treeC3 "a.md"
        { title := none, tags := some (.arr ["x", "y"]) } 5 = [] :=
  ⟨rfl, by decide, rfl⟩

/-- C4 (counterexample): the claim that unordered items are sorted purely
alphabetically by name with type never gating precedence is FALSE: for an
unordered file `a.md` and an unordered directory `z`, the source comparator
puts the directory `z` before `a.md`, although `a.md` sorts alphabetically
before `z`. -/
theorem c4_counterexample :
    structSort [plainItem "a.md" false none, plainItem "z" true none]
      = [plainItem "z" true none, plainItem "a.md" false none]
    ∧ strLt "a.md" "z" = true
    ∧ (plainItem "a.md" false none).order = none
    ∧ (plainItem "z" true none).order = none :=
  ⟨rfl, rfl, rfl, rfl⟩

/-- C4 (amended): every structure listing is sorted by ascending effective
order (explicit numeric `order`, or `Number.MAX_SAFE_INTEGER` when absent —
so all explicitly ordered items precede all unordered ones), with ties broken
first by type (directories before files) and then by name; the output is a
permutation of the input; and the end-to-end example a.md(order:2),
b.md(order:1), c.md(no order) lists as [b.md, a.md, c.md]. -/
theorem c4_order_then_type_then_name (l : List SItem) :
    (structSort l).Perm l
    ∧ (structSort l).Pairwise sKeyLe
    ∧ structSort [plainItem "a.md" false (some 2), plainItem "b.md" false (some 1),
        plainItem "c.md" false none]
      = [plainItem "b.md" false (some 1), plainItem "a.md" false (some 2),
        plainItem "c.md" false none] :=
  ⟨jsSortLe_perm _ l, structSort_pairwise l, rfl⟩

/-- C5 (counterexample): the claim that a cache miss writes the UNTRUNCATED
ranking is FALSE.  On a tree where two candidates qualify, a first call with
`limit = 1` returns one document and caches only that one; a later call with
`limit = 3` is served from cache with a single document, although a fresh
scan with `limit = 3` returns two. -/
theorem c5_counterexample :
    (findRelatedDocumentsForPath treeC5 [] 0 "a" 1 false).1.related.length = 1
    ∧ (findRelatedDocumentsForPath treeC5
        (findRelatedDocumentsForPath treeC5 [] 0 "a" 1 false).2 10 "a" 3 false).1.fromCache
      = true
    ∧ (findRelatedDocumentsForPath treeC5
        (findRelatedDocumentsForPath treeC5 [] 0 "a" 1 false).2 10 "a" 3 false).1.related.length
      = 1
    ∧ (findRelatedDocumentsForPath treeC5 [] 0 "a" 3 false).1.related.length = 2 :=
  ⟨rfl, rfl, rfl, rfl⟩

set_option maxHeartbeats 1000000 in
/-- C5 (amended): on a cache miss for an existing document, `findRelated`
returns with `fromCache = false` a ranking already truncated to `limit`, and
writes exactly that TRUNCATED ranking into the cache keyed by the normalized
target path with the default TTL — so a later request with a larger limit
served from this entry can only see the items cached now. -/
theorem c5_cache_write (root : List FNode) (cache : Cache) (now : Int)
    (p : String) (limit : Nat)
    (hp : p ≠ "")
    (hmiss : (getCachedRelatedDocs cache (normalizeDocPath p) limit now).1 = none)
    (hexists : (treeResolve root (normalizeDocPath p)).isSome = true) :
    (findRelatedDocumentsForPath root cache now p limit false).1.fromCache = false
    ∧ (findRelatedDocumentsForPath root cache now p limit false).1.related.length ≤ limit
    ∧ cacheLookup (findRelatedDocumentsForPath root cache now p limit false).2
        (normalizeDocPath p)
      = some { timestamp := now
               data := (findRelatedDocumentsForPath root cache now p limit false).1.related
               ttl := DEFAULT_CACHE_TTL } := by
  obtain ⟨nd, hnd⟩ := Option.isSome_iff_exists.mp hexists
  rcases hg : getCachedRelatedDocs cache (normalizeDocPath p) limit now with ⟨o, c2⟩
  have ho : o = none := by rw [hg] at hmiss; exact hmiss
  subst ho
  have key : findRelatedDocumentsForPath root cache now p limit false
      = ({ related := findRelatedDocuments root (normalizeDocPath p)
              (dirname (normalizeDocPath p)) (readTargetMeta root (normalizeDocPath p)) limit
           fromCache := false
           error := none },
         cacheRelatedDocs c2 (normalizeDocPath p)
           (findRelatedDocuments root (normalizeDocPath p) (dirname (normalizeDocPath p))
             (readTargetMeta root (normalizeDocPath p)) limit) now DEFAULT_CACHE_TTL) := by
    unfold findRelatedDocumentsForPath
    rw [if_neg hp, if_neg Bool.false_ne_true, hg]
    dsimp only
    rw [hnd]
  rw [key]
  dsimp only
  exact ⟨rfl,
    findRelatedDocuments_length_le root (normalizeDocPath p) (dirname (normalizeDocPath p))
      (readTargetMeta root (normalizeDocPath p)) limit,
    cacheLookup_cacheRelatedDocs c2 (normalizeDocPath p)
      (findRelatedDocuments root (normalizeDocPath p) (dirname (normalizeDocPath p))
        (readTargetMeta root (normalizeDocPath p)) limit)
      now DEFAULT_CACHE_TTL (by decide)⟩

/-- C5 (witness for the amended claim): concrete instance on `treeC5`. -/
theorem c5_witness :
    cacheLookup (findRelatedDocumentsForPath treeC5 [] 0 "a" 1 false).2
        (normalizeDocPath "a")
      = some { timestamp := 0
               data := (findRelatedDocumentsForPath treeC5 [] 0 "a" 1 false).1.related
               ttl := DEFAULT_CACHE_TTL } :=
  (c5_cache_write treeC5 [] 0 "a" 1 (by decide) rfl rfl).2.2

/-- C6: `getCachedRelatedDocs` returns `null` exactly when there is no entry
for the key or `now - timestamp > ttl`; an expired entry is deleted as a side
effect; and concretely, after `set(k, data, ttl = 100)` at time 0, a `get` at
elapsed time 50 returns the data and a `get` at elapsed time 150 returns
absent. -/
theorem c6_get_ttl_semantics (c : Cache) (p : String) (limit : Nat) (now : Int) :
    ((getCachedRelatedDocs c p limit now).1 = none ↔
      cacheLookup c p = none ∨ ∃ e, cacheLookup c p = some e ∧ now - e.timestamp > e.ttl)
    ∧ (∀ e, cacheLookup c p = some e → now - e.timestamp > e.ttl →
        cacheLookup (getCachedRelatedDocs c p limit now).2 p = none)
    ∧ (getCachedRelatedDocs (cacheRelatedDocs [] "k" sampleRelated 0 100) "k" 5 50).1
        = some sampleRelated
    ∧ (getCachedRelatedDocs (cacheRelatedDocs [] "k" sampleRelated 0 100) "k" 5 150).1
        = none := by
  refine ⟨?_, ?_, rfl, rfl⟩
  · unfold getCachedRelatedDocs
    cases hl : cacheLookup c p with
    | none => simp [hl]
    | some e =>
      dsimp only
      by_cases hexp : now - e.timestamp > e.ttl
      · rw [if_pos hexp]
        exact iff_of_true rfl (Or.inr ⟨e, rfl, hexp⟩)
      · rw [if_neg hexp]
        constructor
        · intro h
          exact absurd h (by simp)
        · rintro (h | ⟨e2, he2, hexp2⟩)
          · cases h
          · injection he2 with he3
            subst he3
            exact absurd hexp2 hexp
  · intro e hle hexp
    unfold getCachedRelatedDocs
    rw [hle]
    dsimp only
    rw [if_pos hexp]
    exact cacheLookup_delete c p

/-- C6 (witness): an expired entry is removed by the failing `get`. -/
theorem c6_witness :
    cacheLookup
      (getCachedRelatedDocs
        [("k", { timestamp := 0, data := sampleRelated, ttl := 100 })] "k" 5 150).2 "k"
      = none :=
  (c6_get_ttl_semantics
      [("k", { timestamp := 0, data := sampleRelated, ttl := 100 })] "k" 5 150).2.1
    { timestamp := 0, data := sampleRelated, ttl := 100 } rfl (by decide)

/-- C7: with `skipCache = true`, two consecutive `findRelated` calls against
an unchanged content tree return identical results (the cache written by the
first call is never consulted); the returned ranking is sorted descending by
relevance; and the stable sort keeps candidates of equal relevance in
file-discovery order (for every relevance value, the sorted candidates filter
to exactly the discovery-order candidates of that relevance). -/
theorem c7_skipcache_deterministic (root : List FNode) (cache : Cache)
    (now1 now2 : Int) (p : String) (limit : Nat) :
    (findRelatedDocumentsForPath root
        (findRelatedDocumentsForPath root cache now1 p limit true).2 now2 p limit true).1
      = (findRelatedDocumentsForPath root cache now1 p limit true).1
    ∧ ((findRelatedDocumentsForPath root cache now1 p limit true).1.related).Pairwise
        (fun a b => b.relevance ≤ a.relevance)
    ∧ ∀ (cp : String) (files : List String) (v : Nat),
        (jsSortDesc (collectCandidates cp files)).filter (fun d => d.relevance == v)
          = (collectCandidates cp files).filter (fun d => d.relevance == v) :=
  ⟨frp_skip_result_indep root
      (findRelatedDocumentsForPath root cache now1 p limit true).2 cache now2 now1 p limit,
   frp_skip_related_pairwise root cache now1 p limit,
   fun cp files v => jsSortDesc_filter_relevance (collectCandidates cp files) v⟩

/-- C8: if `fs.readdir` succeeds but the uncaught per-entry `fs.stat` fails
for any entry that survives the skip guards (e.g. a broken symlink named
`broken.md`), the whole structure listing answers 500 Internal Server Error;
whereas when every per-entry `stat` succeeds the listing answers 200
regardless of metadata read or parse failures — so stat errors, unlike
metadata errors, are not tolerated. -/
theorem c8_stat_error_500 :
    (∀ (fs : StructFs) (fullPath contentPath : String) (entries : List SEntry),
      fs.readdir fullPath = .ok entries →
      (∃ e ∈ entries, entrySkipped e = false ∧ ∃ err, e.stat = .error err) →
      statusOf (listDirectoryContents fs fullPath contentPath) = 500)
    ∧ (∀ (fs : StructFs) (fullPath contentPath : String) (entries : List SEntry),
      fs.readdir fullPath = .ok entries →
      (∀ e ∈ entries, ∃ st, e.stat = .ok st) →
      statusOf (listDirectoryContents fs fullPath contentPath) = 200) := by
  constructor
  · intro fs fullPath contentPath entries hrd hex
    unfold listDirectoryContents
    rw [hrd]
    dsimp only
    obtain ⟨err, he⟩ := processEntries_error_of_stat contentPath entries hex
    rw [he]
    rfl
  · intro fs fullPath contentPath entries hrd hok
    unfold listDirectoryContents
    rw [hrd]
    dsimp only
    obtain ⟨items, hi⟩ := processEntries_ok_of_stat contentPath entries hok
    rw [hi]
    rfl

/-- C8 (witness): a concrete listing with one broken entry answers 500. -/
theorem c8_witness : statusOf (listDirectoryContents brokenFs "/c" "") = 500 :=
  c8_stat_error_500.1 brokenFs "/c" "" [brokenEntry] rfl
    ⟨brokenEntry, List.mem_singleton.mpr rfl, rfl,
      { code := some "ENOENT", message := "stat failed" }, rfl⟩

/-- C9: when a sidecar-metadata or front-matter `order` value does not
convert to a number (`Number(v)` is `NaN`, e.g. a non-numeric string), the
item is assigned the explicit order 0 (`Number(v) || 0`) rather than being
treated as unordered, and the comparator places an order-0 item strictly
before every item with a positive order. -/
theorem c9_nonnumeric_order_is_zero :
    (∀ (item : SItem) (m : Meta) (v : JsValue),
      metaLookup m "order" = some v → jsToNumber v = none →
      (applyOrder item m).order = some 0)
    ∧ (∀ (a b : SItem) (n : Int), a.order = some 0 → b.order = some n → 0 < n →
      structCompare a b < 0) := by
  constructor
  · intro item m v hv hnum
    unfold applyOrder
    rw [hv]
    simp [numberOr0, hnum]
  · intro a b n ha hb hn
    unfold structCompare
    rw [if_pos (Or.inl (by simp [ha]))]
    simp only [ha, hb, Option.getD_some]
    rw [if_pos (by omega)]
    omega

/-- C9 (witness): a string `order` yields order 0, which sorts before
order 3. -/
theorem c9_witness :
    (applyOrder sampleItem [("order", JsValue.vStr "not-a-number")]).order = some 0
    ∧ structCompare (plainItem "u.md" false (some 0)) (plainItem "v.md" false (some 3)) < 0 :=
  ⟨c9_nonnumeric_order_is_zero.1 sampleItem _ _ rfl rfl,
   c9_nonnumeric_order_is_zero.2 _ _ 3 rfl rfl (by decide)⟩

/-- C10: `findRelatedDocumentsForPath` is a total function of its inputs (the
embedding shows every fallible step of the source is caught internally, so no
exception reaches the caller), and whenever the result carries an `error`
string its `related` field is the empty array. -/
theorem c10_always_related_array (root : List FNode) (cache : Cache) (now : Int)
    (p : String) (limit : Nat) (sc : Bool) :
    (findRelatedDocumentsForPath root cache now p limit sc).1.error.isSome = true →
    (findRelatedDocumentsForPath root cache now p limit sc).1.related = [] := by
  unfold findRelatedDocumentsForPath
  by_cases hp : p = ""
  · simp [hp]
  · simp only [if_neg hp]
    cases sc with
    | true =>
      simp only [if_true]
      cases treeResolve root (normalizeDocPath p) <;> simp
    | false =>
      simp only [Bool.false_eq_true, if_false]
      rcases hg : getCachedRelatedDocs cache (normalizeDocPath p) limit now with ⟨o, c2⟩
      cases o with
      | some v => simp
      | none =>
        cases treeResolve root (normalizeDocPath p) <;> simp

/-- C10 (witness): the missing-path failure returns an empty `related`. -/
theorem c10_witness :
    (findRelatedDocumentsForPath [] [] 0 "" 5 false).1.related = [] :=
  c10_always_related_array [] [] 0 "" 5 false rfl

end TaciaDocs
